import Mathlib

/-!
Verification of the code-submission pipeline of the Dispatch repository
(`src/tools.py`, `src/utils.py`).

The Python string operations used by `execute_code` (`in`, `split`,
`replace`, `strip`, `isalpha`, `split("\n", 1)`) are embedded as
structurally recursive functions on `List Char` with Python's semantics
(left-to-right, non-overlapping matching for `split`/`replace`/`in`),
so every definition evaluates inside the kernel.
-/

namespace Dispatch

/-! ### Python string primitives -/

/-- Python `s.startswith(p)` on char lists is `List.isPrefixOf`.

`stripChars` below models Python `str.strip()` (with no argument): drop
whitespace from both ends. Python strips Unicode whitespace; this model uses
`Char.isWhitespace`, which agrees on all ASCII inputs (the only ones the
claims exercise). -/
def stripChars (l : List Char) : List Char :=
  ((l.dropWhile Char.isWhitespace).reverse.dropWhile Char.isWhitespace).reverse

/-- Python `str.isalpha()`: non-empty and every character alphabetic.
Python accepts any Unicode letter; `Char.isAlpha` covers the ASCII letters,
which agrees with Python on all ASCII inputs. -/
def pyIsAlpha (l : List Char) : Bool :=
  !l.isEmpty && l.all Char.isAlpha

/-- Python `needle in haystack` (substring test) for char lists.
An occurrence is a position where `needle` is a prefix of the rest. -/
def hasSubList (needle : List Char) : List Char → Bool
  | [] => needle.isEmpty
  | c :: rest => needle.isPrefixOf (c :: rest) || hasSubList needle rest

/-- Scanner for Python `str.split(sep)` with non-empty `sep`: walk the string
left to right; on a match emit the accumulated segment and skip the matched
separator (the `skip` counter makes the recursion structural); otherwise
accumulate the character. -/
def splitLoop (sep : List Char) : List Char → Nat → List Char → List (List Char)
  | [], _, acc => [acc.reverse]
  | _ :: rest, skip + 1, acc => splitLoop sep rest skip acc
  | c :: rest, 0, acc =>
    if sep.isPrefixOf (c :: rest) then
      acc.reverse :: splitLoop sep rest (sep.length - 1) []
    else
      splitLoop sep rest 0 (c :: acc)

/-- Python `s.split(sep)` for char lists.  Python raises on an empty
separator; the `[]` case is a guard that the pipeline never reaches (both
fences are non-empty). -/
def splitOnList (sep l : List Char) : List (List Char) :=
  match sep with
  | [] => [l]
  | _ :: _ => splitLoop sep l 0 []

/-- Python `s.split("\n", 1)`: `some (before, after)` split at the first
newline, `none` when the string has no newline (`"\n" in s` is false). -/
def splitFirstNewline : List Char → Option (List Char × List Char)
  | [] => none
  | c :: rest =>
    if c = '\n' then some ([], rest)
    else (splitFirstNewline rest).map (fun p => (c :: p.1, p.2))

/-- Python `s.replace(old, new)` for non-empty `old`:
equivalent to `new.join(s.split(old))`. -/
def pyReplace (s old new : String) : String :=
  String.mk (List.intercalate new.data (splitOnList old.data s.data))

/-- Python `needle in haystack` at the `String` level. -/
def pyContainsSub (haystack needle : String) : Bool :=
  hasSubList needle.data haystack.data

/-! ### Constants from `src/utils.py` -/

/-- `MAX_RETRIES = 3` (`src/utils.py` line 14). -/
def MAX_RETRIES : Nat := 3

/-- `INITIAL_RETRY_DELAY = 1` (`src/utils.py` line 15). -/
def INITIAL_RETRY_DELAY : Nat := 1

/-- `API_TIMEOUT = 10` (`src/utils.py` line 16). -/
def API_TIMEOUT : Int := 10

/-- `SUPPORTED_LANGUAGES` (`src/utils.py` lines 21-51), in source order. -/
def SUPPORTED_LANGUAGES : List String :=
  ["python", "cpp", "nodejs", "go", "go_test", "java", "php", "csharp",
   "bash", "typescript", "sql", "rust", "cuda", "lua", "R", "perl", "D_ut",
   "ruby", "scala", "julia", "pytest", "junit", "kotlin_script", "jest",
   "verilog", "python_gpu", "lean", "swift", "racket"]

/-! ### Code-block extraction (`src/tools.py` lines 210-224) -/

/-- The language-tagged fence literal from line 211. -/
def PYTHON_FENCE : String := "```python"

/-- The bare fence literal from lines 212-215. -/
def BARE_FENCE : String := "```"

/-- Result of the extraction phase: either a code payload, or the early
return of line 224 (`return 0.0, [{"error": "Invalid completion (missing
code block)"}]`). -/
inductive Extracted where
  | code (c : String)
  | missing
deriving DecidableEq

/-- Lines 210-224 of `src/tools.py`:

```
code = completion
if "```python" in completion:
    code = completion.split("```python")[-1].split("```")[0]
elif "```" in completion:
    parts = completion.split("```")
    if len(parts) >= 2:
        code = parts[1]
        if "\n" in code:
            first_line, rest = code.split("\n", 1)
            if first_line.strip().isalpha():
                code = rest
else:
    return 0.0, [...]
```

`[-1]` / `[0]` on a split result are `getLastD` / `headD` (a split is never
empty, so the defaults are unreachable).  The `"\n" in code` test and the
`split("\n", 1)` are fused into the single `splitFirstNewline` match. -/
def extract_code (completion : String) : Extracted :=
  let cl := completion.data
  if hasSubList PYTHON_FENCE.data cl then
    Extracted.code (String.mk
      ((splitOnList BARE_FENCE.data
        ((splitOnList PYTHON_FENCE.data cl).getLastD [])).headD []))
  else if hasSubList BARE_FENCE.data cl then
    let parts := splitOnList BARE_FENCE.data cl
    if 2 ≤ parts.length then
      let code := parts.getD 1 []
      match splitFirstNewline code with
      | some (first_line, rest) =>
        if pyIsAlpha (stripChars first_line) then Extracted.code (String.mk rest)
        else Extracted.code (String.mk code)
      | none => Extracted.code (String.mk code)
    else
      Extracted.code completion
  else
    Extracted.missing

/-! ### The submission loop (`src/tools.py` lines 226-305)

The network is the only non-deterministic collaborator: it is modelled as a
function from the attempt index to what `requests.post` produces on that
attempt.  A parsed JSON body is kept abstract as a `String` payload
(`none` = the body is not valid JSON, so `response.json()` raises). -/

/-- What the transport returns on one attempt: either an HTTP response with
a status code and a body (`some v` = the body parses as JSON value `v`,
`none` = malformed body), or `requests.post` itself raises a
`RequestException` rendered as `msg`. -/
inductive Response where
  | http (status : Nat) (body : Option String)
  | exn (msg : String)

/-- How the `for attempt in range(MAX_RETRIES)` loop ends: `success` is the
`return response.json(), None` on line 288; `failed` is reaching line 301
with the recorded `last_error`. -/
inductive LoopExit where
  | success (body : String)
  | failed (lastError : Option String)
deriving DecidableEq

/-- `log_prefix = f"[Request ID: {request_id}] "` (line 228). -/
def logPfx (request_id : String) : String :=
  "[Request ID: " ++ request_id ++ "] "

/-- Rendering of a `requests` `HTTPError` raised by `raise_for_status`
(line 282) as a string, `f"{status_code} Server Error: ... for url: ..."`.
The server-supplied reason phrase is not modelled; the status code is. -/
def httpErrorText (status : Nat) : String :=
  Nat.repr status ++ " Server Error for url: http://localhost:8080/run_code"

/-- Rendering of the `json.JSONDecodeError` raised by `response.json()` on a
malformed body (line 293); the position details are not modelled. -/
def JSON_DECODE_ERROR_TEXT : String := "Expecting value"

/-- `last_error` core for `f"API Request Error: {e}"` (lines 267-270, 291). -/
def MSG_REQ_ERROR (e : String) : String := "API Request Error: " ++ e

/-- `last_error` core for the 504 branch (lines 267-270):
`f"API Request Error: Gateway Timeout (504) on attempt {attempt+1}/{MAX_RETRIES}"`. -/
def MSG_504 (attempt : Nat) : String :=
  "API Request Error: Gateway Timeout (504) on attempt " ++
    Nat.repr (attempt + 1) ++ "/" ++ Nat.repr MAX_RETRIES

/-- `last_error` core for `f"API Response JSON Decode Error: {e}"` (line 295). -/
def MSG_DECODE : String :=
  "API Response JSON Decode Error: " ++ JSON_DECODE_ERROR_TEXT

/-- The retry loop, lines 253-299, one list element per remaining value of
`attempt` (entered with `List.range MAX_RETRIES`).  Accumulates the call
count and the `time.sleep` durations.  Branches in source order:

* `requests.post` raises → `except RequestException` records the error and
  breaks (lines 290-292);
* status 504 → record `last_error`; sleep
  `INITIAL_RETRY_DELAY * (attempt + 1)` unless this was the last attempt;
  `continue` (lines 266-279);
* other status in 400-599 → `raise_for_status` raises `HTTPError`, caught
  by the same `RequestException` handler, break (lines 282, 290-292);
  `requests` raises only for `400 <= status_code < 600`, so a surfaced
  status outside that band (1xx, 3xx, or 600-999) falls through to the
  json path like a 2xx;
* otherwise `response.json()`: a parsed body returns success immediately
  (line 288); a malformed body records the decode error and breaks
  (lines 293-296).  (On `requests ≥ 2.27` the decode exception also
  subclasses `RequestException` and would be recorded by the first
  handler's text instead; both handlers break after one call, so only the
  message wording differs.) -/
def runAttempts (net : Nat → Response) (logp : String) :
    List Nat → Option String → Nat → List Nat → LoopExit × Nat × List Nat
  | [], last_error, calls, sleeps => (.failed last_error, calls, sleeps)
  | attempt :: rest, _, calls, sleeps =>
    match net attempt with
    | .exn msg => (.failed (some (logp ++ MSG_REQ_ERROR msg)), calls + 1, sleeps)
    | .http status body =>
      if status = 504 then
        let le := logp ++ MSG_504 attempt
        if attempt < MAX_RETRIES - 1 then
          runAttempts net logp rest (some le) (calls + 1)
            (sleeps ++ [INITIAL_RETRY_DELAY * (attempt + 1)])
        else
          runAttempts net logp rest (some le) (calls + 1) sleeps
      else if 400 ≤ status ∧ status < 600 then
        (.failed (some (logp ++ MSG_REQ_ERROR (httpErrorText status))),
          calls + 1, sleeps)
      else
        match body with
        | some v => (.success v, calls + 1, sleeps)
        | none => (.failed (some (logp ++ MSG_DECODE)), calls + 1, sleeps)

/-! ### `execute_code` (`src/tools.py` lines 201-305) -/

/-- The JSON request payload built on lines 235-246.  `files` and
`fetch_files` are serialized as the empty dict / empty list unconditionally;
they are carried as always-empty fields. -/
structure SandboxRequest where
  compile_timeout : Int
  run_timeout : Int
  code : String
  stdin : String
  memory_limit_MB : Int
  language : String
  files : List (String × String)
  fetch_files : List String
deriving DecidableEq

/-- A Python value as it appears in `execute_code`'s return pair:
`none` is Python `None`; `float0` is the literal `0.0` of line 224;
`str` a string; `jsonObj` the parsed response object of line 288;
`errList` the list `[{"error": msg}]` of line 224. -/
inductive PyVal where
  | none
  | float0
  | str (s : String)
  | jsonObj (body : String)
  | errList (msg : String)
deriving DecidableEq

/-- Observable outcome of one `execute_code` call: the returned pair
`(result, error)`, the request payload if one was built, the number of
`requests.post` calls issued, and the list of `time.sleep` durations. -/
structure ExecTrace where
  result : PyVal
  error : PyVal
  request : Option SandboxRequest
  calls : Nat
  sleeps : List Nat
deriving DecidableEq

/-- Conversion of the loop's exit into the returned pair: success is
`return response.json(), None` (line 288); a recorded failure returns
`None, last_error.replace(log_prefix, "API Call Failed: ")` (line 305),
whose `if last_error` guard falls back to the bare
`"API Call Failed after retries"` string when `last_error` is unset. -/
def finishLoop (logp : String) (payload : SandboxRequest) :
    LoopExit × Nat × List Nat → ExecTrace
  | (.success body, calls, sleeps) =>
    ⟨.jsonObj body, .none, some payload, calls, sleeps⟩
  | (.failed (some e), calls, sleeps) =>
    ⟨.none, .str (pyReplace e logp "API Call Failed: "),
      some payload, calls, sleeps⟩
  | (.failed Option.none, calls, sleeps) =>
    ⟨.none, .str "API Call Failed after retries", some payload, calls, sleeps⟩

/-- `execute_code` (lines 201-305).  `request_id` is the value drawn by
`uuid.uuid4()` on line 227 (non-deterministic, hence a parameter); `net` is
the transport.  Control flow:

1. extraction (lines 210-224); on a missing code block return
   `0.0, [{"error": "Invalid completion (missing code block)"}]` with no
   request built and no network call;
2. unsupported language (lines 230-233): return
   `None, f"{log_prefix}Unsupported language: {language}"` — note the
   prefix is NOT stripped on this path — with no request and no call;
3. build the payload (lines 235-246) and run the retry loop; the computed
   `request_timeout = compile_timeout + run_timeout + API_TIMEOUT`
   (line 249) only parameterizes the transport and is not otherwise
   observable, so it is not carried in the trace;
4. on loop failure return
   `None, last_error.replace(log_prefix, "API Call Failed: ")` (line 305);
   the `if last_error` guard's else-branch returns the bare string
   `"API Call Failed after retries"`. -/
def execute_code (request_id : String) (net : Nat → Response)
    (completion stdin : String) (compile_timeout run_timeout memory_limit_mb : Int)
    (language : String) : ExecTrace :=
  match extract_code completion with
  | .missing =>
    ⟨.float0, .errList "Invalid completion (missing code block)", Option.none, 0, []⟩
  | .code code =>
    let logp := logPfx request_id
    if language ∈ SUPPORTED_LANGUAGES then
      let payload : SandboxRequest :=
        ⟨compile_timeout, run_timeout, code, stdin, memory_limit_mb, language, [], []⟩
      finishLoop logp payload
        (runAttempts net logp (List.range MAX_RETRIES) Option.none 0 [])
    else
      ⟨.none, .str (logp ++ "Unsupported language: " ++ language),
        Option.none, 0, []⟩

/-! ### `do_math` (`src/tools.py` lines 185-198) and its schema -/

/-- Structured rendering of `do_math`'s returned string:
`errUnknownOperation` is `"Error: Unknown operation"`, `errDivByZero` is
`"Error: Division by zero"`, `resultInt n` is `f"The result is {n}"`, and
`resultDiv a b` is `f"The result is {a / b}"` with Python float division
(the float's decimal rendering is not modelled further; no claim reads it). -/
inductive DoMathResult where
  | errUnknownOperation
  | errDivByZero
  | resultInt (n : Int)
  | resultDiv (a b : Int)
deriving DecidableEq

/-- Lines 185-198.  The first statement is `if operation == "sum": result =
a + b` — an independent `if` with no `elif` chaining it to the rest.  The
second chain `if operation == "subtract": ... elif ... else: return
"Error: Unknown operation"` then runs unconditionally, so for `"sum"` the
assigned `result` is dead: execution falls into the chain's `else` and
returns the error before the final `return f"The result is {result}"` can
read it.  The dead store is kept here as `_sum_result`. -/
def do_math (a b : Int) (operation : String) : DoMathResult :=
  let _sum_result : Option Int := if operation = "sum" then some (a + b) else none
  if operation = "subtract" then .resultInt (a - b)
  else if operation = "multiply" then .resultInt (a * b)
  else if operation = "divide" then
    if b = 0 then .errDivByZero else .resultDiv a b
  else .errUnknownOperation

/-- The `enum` of the `operation` parameter in `TOOLS_SPEC`'s `do_math`
entry (`src/tools.py` line 519). -/
def DO_MATH_OPERATION_ENUM : List String :=
  ["sum", "multiply", "divide", "subtract"]

/-! ### Lemmas about the Python string primitives -/

/-- The backtick character (codepoint 96). -/
def BACKTICK : Char := Char.ofNat 96

theorem isPrefixOf_true_intro {l₁ l₂ : List Char} (h : l₁ <+: l₂) :
    l₁.isPrefixOf l₂ = true := by
  simpa using h

theorem isPrefixOf_true_elim {l₁ l₂ : List Char} (h : l₁.isPrefixOf l₂ = true) :
    l₁ <+: l₂ := by
  simpa using h

/-- An occurrence of `s₂` is an occurrence of every prefix `s₁` of `s₂`. -/
theorem hasSubList_mono {s₁ s₂ : List Char} (l : List Char) (hpre : s₁ <+: s₂)
    (h : hasSubList s₂ l = true) : hasSubList s₁ l = true := by
  induction l with
  | nil =>
    simp only [hasSubList, List.isEmpty_iff] at h ⊢
    subst h
    exact List.prefix_nil.mp hpre
  | cons c rest ih =>
    simp only [hasSubList, Bool.or_eq_true] at h ⊢
    rcases h with h | h
    · exact Or.inl (isPrefixOf_true_intro (hpre.trans (isPrefixOf_true_elim h)))
    · exact Or.inr (ih h)

/-- A needle starting with a character absent from the haystack never occurs. -/
theorem hasSubList_eq_false_of_head_notMem {c : Char} {cs l : List Char}
    (h : c ∉ l) : hasSubList (c :: cs) l = false := by
  induction l with
  | nil => rfl
  | cons d rest ih =>
    have hcd : c ≠ d := fun hcd => h (hcd ▸ List.mem_cons_self d rest)
    have h2 : c ∉ rest := fun hm => h (List.mem_cons_of_mem d hm)
    simp only [hasSubList, Bool.or_eq_false_iff]
    refine ⟨?_, ih h2⟩
    simp [List.isPrefixOf, hcd]

/-- The separator occurs in `x ++ sep ++ y`. -/
theorem hasSubList_append_self (sep x y : List Char) (hsep : sep ≠ []) :
    hasSubList sep (x ++ sep ++ y) = true := by
  induction x with
  | nil =>
    match sep, hsep with
    | a :: as, _ =>
      have hpre : (a :: as) <+: ((a :: as) ++ y) := List.prefix_append _ _
      simp only [List.nil_append, List.cons_append, hasSubList, Bool.or_eq_true]
      exact Or.inl (isPrefixOf_true_intro (by simp only [List.cons_append] at hpre; exact hpre))
  | cons c x' ih =>
    simp only [List.cons_append, hasSubList, Bool.or_eq_true]
    exact Or.inr (by simpa using ih)

/-- Skipping over a block of `u.length` characters just discards `u`. -/
theorem splitLoop_skip (sep : List Char) :
    ∀ (u m acc : List Char), splitLoop sep (u ++ m) u.length acc = splitLoop sep m 0 acc
  | [], _, _ => rfl
  | c :: u', m, acc => by
    simp only [List.cons_append, List.length_cons, splitLoop]
    exact splitLoop_skip sep u' m acc

/-- The scan over `sep ++ m` at a scan position: emit the accumulator, skip
the separator, continue on `m`. -/
theorem splitLoop_cons_self (a : Char) (as m acc : List Char) :
    splitLoop (a :: as) ((a :: as) ++ m) 0 acc
      = acc.reverse :: splitLoop (a :: as) m 0 [] := by
  have hpre : (a :: as).isPrefixOf (a :: (as ++ m)) = true := by
    have := List.prefix_append (a :: as) m
    exact isPrefixOf_true_intro (by simp only [List.cons_append] at this; exact this)
  show splitLoop (a :: as) (a :: (as ++ m)) 0 acc = acc.reverse :: splitLoop (a :: as) m 0 []
  simp only [splitLoop]
  rw [if_pos hpre]
  rw [show (a :: as).length - 1 = as.length from by simp]
  rw [splitLoop_skip (a :: as) as m []]

/-- A scan over a match-free string returns a single segment. -/
theorem splitLoop_no_match (sep : List Char) :
    ∀ (m acc : List Char), hasSubList sep m = false →
      splitLoop sep m 0 acc = [acc.reverse ++ m]
  | [], acc, _ => by simp [splitLoop]
  | c :: rest, acc, h => by
    simp only [hasSubList, Bool.or_eq_false_iff] at h
    simp only [splitLoop]
    rw [if_neg (by simp [h.1]), splitLoop_no_match sep rest (c :: acc) h.2]
    simp

/-- Head segment of the scan over `x ++ sep ++ y` when no occurrence of
`sep` starts inside `x`: no occurrence lies wholly in `x` (first
hypothesis), and no occurrence starts in `x` and overlaps the boundary —
for that it is enough that no non-empty suffix of `x` is a prefix of `sep`
(second hypothesis). -/
theorem splitLoop_emit_head (sep : List Char) (hsep : sep ≠ []) :
    ∀ (x y acc : List Char), hasSubList sep x = false →
      (∀ u : List Char, u ≠ [] → u <:+ x → ¬ u <+: sep) →
      splitLoop sep (x ++ sep ++ y) 0 acc
        = (acc.reverse ++ x) :: splitLoop sep y 0 []
  | [], y, acc, _, _ => by
    match sep, hsep with
    | a :: as, _ =>
      simp only [List.nil_append, List.append_nil]
      rw [splitLoop_cons_self]
  | c :: x', y, acc, h1, h2 => by
    have hshape : ((c :: x') ++ sep) ++ y = c :: ((x' ++ sep) ++ y) := by simp
    by_cases hc : sep.isPrefixOf (c :: ((x' ++ sep) ++ y)) = true
    · exfalso
      have hpre : sep <+: (c :: x') ++ (sep ++ y) := by
        have := isPrefixOf_true_elim hc
        simpa using this
      have hxpre : (c :: x') <+: (c :: x') ++ (sep ++ y) := List.prefix_append _ _
      by_cases hlen : sep.length ≤ (c :: x').length
      · have hsx : sep <+: (c :: x') :=
          List.prefix_of_prefix_length_le hpre hxpre hlen
        have : hasSubList sep (c :: x') = true := by
          simp only [hasSubList, Bool.or_eq_true]
          exact Or.inl (isPrefixOf_true_intro hsx)
        rw [h1] at this
        exact Bool.false_ne_true this
      · push_neg at hlen
        have hxs : (c :: x') <+: sep :=
          List.prefix_of_prefix_length_le hxpre hpre (Nat.le_of_lt hlen)
        exact h2 (c :: x') (List.cons_ne_nil c x') (List.suffix_refl _) hxs
    · rw [hshape]
      have hstep : splitLoop sep (c :: ((x' ++ sep) ++ y)) 0 acc
          = splitLoop sep ((x' ++ sep) ++ y) 0 (c :: acc) := by
        simp only [splitLoop]
        rw [if_neg (by simpa using hc)]
      rw [hstep]
      have h1' : hasSubList sep x' = false := by
        simp only [hasSubList, Bool.or_eq_false_iff] at h1
        exact h1.2
      have h2' : ∀ u : List Char, u ≠ [] → u <:+ x' → ¬ u <+: sep := by
        intro u hu hsuf
        exact h2 u hu (hsuf.trans (List.suffix_cons c x'))
      rw [splitLoop_emit_head sep hsep x' y (c :: acc) h1' h2']
      simp

/-- `sep` has no non-trivial border: no proper non-empty prefix of `sep` is
also a suffix of `sep`.  Checked as a boolean so concrete separators are
handled by `decide`. -/
def borderFreeB (sep : List Char) : Bool :=
  (List.range sep.length).all fun k =>
    k == 0 || !(sep.take k == sep.drop (sep.length - k))

theorem borderFreeB_spec {sep : List Char} (hbf : borderFreeB sep = true)
    {k : Nat} (hk0 : k ≠ 0) (hklen : k < sep.length) :
    sep.take k ≠ sep.drop (sep.length - k) := by
  have h := List.all_eq_true.mp hbf k (List.mem_range.mpr hklen)
  simp only [Bool.or_eq_true, beq_iff_eq, Bool.not_eq_eq_eq_not, Bool.not_true,
    beq_eq_false_iff_ne, ne_eq] at h
  rcases h with h | h
  · exact absurd h hk0
  · exact h

/-- Last segment of the scan over `x ++ sep ++ y` when `sep` is border-free
and does not occur in `y`: whatever matches happen inside `x`, the suffix
after the scan's final match is exactly `y`. -/
theorem splitLoop_last_seg (a : Char) (as y : List Char)
    (hbf : borderFreeB (a :: as) = true)
    (hy : hasSubList (a :: as) y = false) :
    ∀ (n : Nat) (x acc : List Char), x.length ≤ n →
      ∃ init, splitLoop (a :: as) ((x ++ (a :: as)) ++ y) 0 acc = init ++ [y] := by
  intro n
  induction n with
  | zero =>
    intro x acc hx
    have hxnil : x = [] := List.eq_nil_of_length_eq_zero (Nat.le_zero.mp hx)
    subst hxnil
    refine ⟨[acc.reverse], ?_⟩
    simp only [List.nil_append]
    rw [splitLoop_cons_self, splitLoop_no_match _ _ _ hy]
    simp
  | succ n ih =>
    intro x acc hx
    match x with
    | [] =>
      refine ⟨[acc.reverse], ?_⟩
      simp only [List.nil_append]
      rw [splitLoop_cons_self, splitLoop_no_match _ _ _ hy]
      simp
    | c :: x' =>
      have hshape : (((c :: x') ++ (a :: as)) ++ y) = c :: ((x' ++ (a :: as)) ++ y) := by
        simp
      by_cases hc : (a :: as).isPrefixOf (c :: ((x' ++ (a :: as)) ++ y)) = true
      · by_cases hlen : (a :: as).length ≤ (c :: x').length
        · -- the match consumes `c` and `as.length` further characters of `x'`
          have haslen : as.length ≤ x'.length := by
            simpa using hlen
          have hxlen : x'.length + 1 ≤ n + 1 := by simpa using hx
          have hsplit : x' = x'.take as.length ++ x'.drop as.length :=
            (List.take_append_drop as.length x').symm
          have hlentake : (x'.take as.length).length = as.length := by
            simp [haslen]
          obtain ⟨init, hinit⟩ := ih (x'.drop as.length) []
            (by
              have hd : (x'.drop as.length).length ≤ x'.length := by simp
              omega)
          refine ⟨acc.reverse :: init, ?_⟩
          rw [hshape]
          have hstep : splitLoop (a :: as) (c :: ((x' ++ (a :: as)) ++ y)) 0 acc
              = acc.reverse :: splitLoop (a :: as) ((x' ++ (a :: as)) ++ y)
                  ((a :: as).length - 1) [] := by
            simp only [splitLoop]
            rw [if_pos hc]
          have hrest : (x' ++ (a :: as)) ++ y
              = x'.take as.length ++ ((x'.drop as.length ++ (a :: as)) ++ y) := by
            conv_lhs => rw [hsplit]
            simp only [List.append_assoc]
          have hskip := splitLoop_skip (a :: as) (x'.take as.length)
            ((x'.drop as.length ++ (a :: as)) ++ y) []
          rw [hlentake] at hskip
          rw [hstep, show (a :: as).length - 1 = as.length from by simp,
            hrest, hskip, hinit]
          simp
        · -- the alleged match would overlap the separator: a border
          exfalso
          push_neg at hlen
          have hpre : (a :: as) <+: (c :: x') ++ ((a :: as) ++ y) := by
            have := isPrefixOf_true_elim hc
            simpa using this
          set sep := a :: as with hsepdef
          set x := c :: x' with hxdef
          have hxlen : 0 < x.length := by simp [hxdef]
          have hxlt : x.length < sep.length := hlen
          -- sep = x ++ sep.take (sep.length - x.length)
          have htake : sep = (x ++ (sep ++ y)).take sep.length := by
            rw [List.prefix_iff_eq_take] at hpre
            simpa using hpre
          have htake2 : (x ++ (sep ++ y)).take sep.length
              = x ++ (sep ++ y).take (sep.length - x.length) := by
            rw [List.take_append_eq_append_take,
              List.take_of_length_le (Nat.le_of_lt hxlt)]
          have htake3 : (sep ++ y).take (sep.length - x.length)
              = sep.take (sep.length - x.length) := by
            rw [List.take_append_eq_append_take,
              show sep.length - x.length - sep.length = 0 by omega]
            simp
          have hdecomp : sep = x ++ sep.take (sep.length - x.length) := by
            conv_lhs => rw [htake, htake2, htake3]
          have hdrop : sep.drop x.length = sep.take (sep.length - x.length) := by
            conv_lhs => rw [hdecomp]
            exact List.drop_left x _
          have hk0 : sep.length - x.length ≠ 0 := by omega
          have hklen : sep.length - x.length < sep.length := by omega
          have := borderFreeB_spec hbf hk0 hklen
          rw [show sep.length - (sep.length - x.length) = x.length by omega] at this
          exact this hdrop.symm
      · -- no match at this scan position
        obtain ⟨init, hinit⟩ := ih x' (c :: acc)
          (by
            have hxlen : x'.length + 1 ≤ n + 1 := by simpa using hx
            omega)
        refine ⟨init, ?_⟩
        rw [hshape]
        have hstep : splitLoop (a :: as) (c :: ((x' ++ (a :: as)) ++ y)) 0 acc
            = splitLoop (a :: as) ((x' ++ (a :: as)) ++ y) 0 (c :: acc) := by
          simp only [splitLoop]
          rw [if_neg (by simpa using hc)]
        rw [hstep]
        exact hinit

/-- Splitting `x ++ sep ++ y` with a border-free `sep` that does not occur
in `y`: the last Python segment (`[-1]`) is exactly `y`, whatever matches
happen inside `x`. -/
theorem splitOnList_getLast (a : Char) (as x y : List Char)
    (hbf : borderFreeB (a :: as) = true)
    (hy : hasSubList (a :: as) y = false) :
    (splitOnList (a :: as) ((x ++ (a :: as)) ++ y)).getLastD [] = y := by
  obtain ⟨init, hinit⟩ :=
    splitLoop_last_seg a as y hbf hy x.length x [] (Nat.le_refl _)
  simp only [splitOnList]
  rw [hinit, List.getLastD_concat]

/-- Splitting `x ++ sep ++ y` when no occurrence of `sep` starts inside
`x`: the split is `x` consed onto the scan of `y`. -/
theorem splitOnList_emit_head (sep x y : List Char) (hsep : sep ≠ [])
    (h1 : hasSubList sep x = false)
    (h2 : ∀ u : List Char, u ≠ [] → u <:+ x → ¬ u <+: sep) :
    splitOnList sep ((x ++ sep) ++ y) = x :: splitLoop sep y 0 [] := by
  match sep, hsep with
  | a :: as, _ =>
    simp only [splitOnList]
    rw [splitLoop_emit_head (a :: as) (List.cons_ne_nil a as) x y [] h1 h2]
    simp

/-- Every character of the bare fence is a backtick, so a non-empty prefix
of it ends in a backtick; a string whose last character is not a backtick
therefore has no non-empty suffix that is a prefix of the fence. -/
theorem no_suffix_into_bare_fence (x : List Char)
    (h : x.getLast? ≠ some BACKTICK) :
    ∀ u : List Char, u ≠ [] → u <:+ x → ¬ u <+: BARE_FENCE.data := by
  intro u hu hsuf hpre
  have hlast : u.getLast? = some (u.getLast hu) := List.getLast?_eq_getLast u hu
  have hmem : u.getLast hu ∈ u := List.getLast_mem hu
  have hmem2 : u.getLast hu ∈ BARE_FENCE.data := hpre.subset hmem
  have hfence : BARE_FENCE.data = [BACKTICK, BACKTICK, BACKTICK] := by decide
  have hbt : u.getLast hu = BACKTICK := by
    rw [hfence] at hmem2
    simpa using hmem2
  obtain ⟨w, hw⟩ := hsuf
  apply h
  rw [← hw, List.getLast?_append, hlast, hbt]
  rfl

/-- Python `code.split("\n", 1)` on `fl ++ "\n" ++ seg` with no newline in
`fl` yields `(fl, seg)`. -/
theorem splitFirstNewline_append (fl seg : List Char) (hfl : '\n' ∉ fl) :
    splitFirstNewline (fl ++ '\n' :: seg) = some (fl, seg) := by
  induction fl with
  | nil => simp [splitFirstNewline]
  | cons c fl' ih =>
    have hc : ¬ (c = '\n') := fun hc => hfl (by rw [hc]; exact List.mem_cons_self _ _)
    have h2 : '\n' ∉ fl' := fun hm => hfl (List.mem_cons_of_mem c hm)
    simp only [List.cons_append, splitFirstNewline]
    rw [if_neg hc,
      show splitFirstNewline (fl'.append ('\n' :: seg)) = some (fl', seg) from ih h2]
    rfl

/-- Python's `(pfx + m).replace(pfx, q) = q + m` when the non-empty prefix
`pfx` does not occur in `m`: this is how line 305 strips the log prefix. -/
theorem pyReplace_pfx_append (pfx m q : String) (a : Char) (as : List Char)
    (hdata : pfx.data = a :: as)
    (hm : hasSubList pfx.data m.data = false) :
    pyReplace (pfx ++ m) pfx q = q ++ m := by
  rw [hdata] at hm
  have h1 : (pfx ++ m).data = a :: (as ++ m.data) := by
    rw [String.data_append, hdata]
    simp
  have h2 : splitOnList pfx.data (pfx ++ m).data = [[], m.data] := by
    rw [hdata, h1]
    show splitLoop (a :: as) (a :: (as ++ m.data)) 0 [] = [[], m.data]
    have hcs := splitLoop_cons_self a as m.data []
    simp only [List.cons_append] at hcs
    rw [hcs, splitLoop_no_match _ _ _ hm]
    simp
  unfold pyReplace
  rw [h2]
  apply String.ext
  show List.intercalate q.data [[], m.data] = (q ++ m).data
  rw [String.data_append]
  simp [List.intercalate, List.intersperse]

/-! ### No `'['` in decimal renderings or the loop's error cores

The log prefix starts with `'['`; none of the loop-generated error cores
contains a `'['`, so `replace` on line 305 strips exactly the prefix. -/

theorem digitChar_ne_lbrack (n : Nat) : Nat.digitChar n ≠ '[' := by
  by_cases h16 : n < 16
  · interval_cases n <;> decide
  · unfold Nat.digitChar
    iterate 16 rw [if_neg (by omega)]
    decide

theorem toDigitsCore_ne_lbrack (b : Nat) :
    ∀ (fuel n : Nat) (ds : List Char), (∀ c ∈ ds, c ≠ '[') →
      ∀ c ∈ Nat.toDigitsCore b fuel n ds, c ≠ '['
  | 0, _, _, hds => by
    intro c hc
    exact hds c hc
  | fuel + 1, n, ds, hds => by
    intro c hc
    simp only [Nat.toDigitsCore] at hc
    have hcons : ∀ d ∈ Nat.digitChar (n % b) :: ds, d ≠ '[' := by
      intro d hd
      rcases List.mem_cons.mp hd with h | h
      · exact h ▸ digitChar_ne_lbrack _
      · exact hds d h
    by_cases hz : n / b = 0
    · rw [if_pos hz] at hc
      exact hcons c hc
    · rw [if_neg hz] at hc
      exact toDigitsCore_ne_lbrack b fuel (n / b) _ hcons c hc

theorem repr_no_lbrack (n : Nat) : ('[' : Char) ∉ (Nat.repr n).data := by
  intro hmem
  have hdata : (Nat.repr n).data = Nat.toDigitsCore 10 (n + 1) n [] := rfl
  rw [hdata] at hmem
  exact toDigitsCore_ne_lbrack 10 (n + 1) n []
    (by intro c hc; cases hc) '[' hmem rfl

theorem httpErrorText_no_lbrack (st : Nat) :
    ('[' : Char) ∉ (httpErrorText st).data := by
  intro hmem
  unfold httpErrorText at hmem
  rw [String.data_append] at hmem
  rcases List.mem_append.mp hmem with h | h
  · exact repr_no_lbrack st h
  · revert h
    decide

theorem msgReqError_no_lbrack (e : String) (he : ('[' : Char) ∉ e.data) :
    ('[' : Char) ∉ (MSG_REQ_ERROR e).data := by
  intro hmem
  unfold MSG_REQ_ERROR at hmem
  rw [String.data_append] at hmem
  rcases List.mem_append.mp hmem with h | h
  · revert h
    decide
  · exact he h

theorem msg504_no_lbrack (attempt : Nat) :
    ('[' : Char) ∉ (MSG_504 attempt).data := by
  intro hmem
  unfold MSG_504 at hmem
  rw [String.data_append, String.data_append, String.data_append] at hmem
  rcases List.mem_append.mp hmem with h | h
  · rcases List.mem_append.mp h with h2 | h2
    · rcases List.mem_append.mp h2 with h3 | h3
      · revert h3
        decide
      · exact repr_no_lbrack (attempt + 1) h3
    · revert h2
      decide
  · exact repr_no_lbrack MAX_RETRIES h

theorem msgDecode_no_lbrack : ('[' : Char) ∉ MSG_DECODE.data := by
  decide

theorem logPfx_data (id : String) :
    (logPfx id).data
      = '[' :: ("Request ID: ".data ++ id.data ++ "] ".data) := by
  show ("[Request ID: " ++ id ++ "] ").data = _
  rw [String.data_append, String.data_append,
    show "[Request ID: ".data = '[' :: "Request ID: ".data from rfl]
  simp

theorem hasSub_logPfx_eq_false (id m : String)
    (hm : ('[' : Char) ∉ m.data) :
    hasSubList (logPfx id).data m.data = false := by
  rw [logPfx_data]
  exact hasSubList_eq_false_of_head_notMem hm

/-! ### The retry loop with the log prefix factored out

`runAbs` is `runAttempts` with the prefix stripped from the recorded error;
`runAttempts_eq_render` shows the two agree, which isolates everything the
outcome can depend on from the request id. -/

/-- `runAttempts` with the error core kept free of the log prefix. -/
def runAbs (net : Nat → Response) :
    List Nat → Option String → Nat → List Nat → LoopExit × Nat × List Nat
  | [], core, calls, sleeps => (.failed core, calls, sleeps)
  | attempt :: rest, _, calls, sleeps =>
    match net attempt with
    | .exn msg => (.failed (some (MSG_REQ_ERROR msg)), calls + 1, sleeps)
    | .http status body =>
      if status = 504 then
        if attempt < MAX_RETRIES - 1 then
          runAbs net rest (some (MSG_504 attempt)) (calls + 1)
            (sleeps ++ [INITIAL_RETRY_DELAY * (attempt + 1)])
        else
          runAbs net rest (some (MSG_504 attempt)) (calls + 1) sleeps
      else if 400 ≤ status ∧ status < 600 then
        (.failed (some (MSG_REQ_ERROR (httpErrorText status))), calls + 1, sleeps)
      else
        match body with
        | some v => (.success v, calls + 1, sleeps)
        | none => (.failed (some MSG_DECODE), calls + 1, sleeps)

/-- Re-attach the log prefix to the recorded error core. -/
def renderExit (pfx : String) : LoopExit → LoopExit
  | .success v => .success v
  | .failed le => .failed (le.map (fun m => pfx ++ m))

theorem runAttempts_eq_render (net : Nat → Response) (pfx : String) :
    ∀ (attempts : List Nat) (core : Option String) (calls : Nat) (sleeps : List Nat),
      runAttempts net pfx attempts (core.map (fun m => pfx ++ m)) calls sleeps
        = (renderExit pfx (runAbs net attempts core calls sleeps).1,
           (runAbs net attempts core calls sleeps).2)
  | [], core, calls, sleeps => by simp [runAttempts, runAbs, renderExit]
  | attempt :: rest, core, calls, sleeps => by
    cases hna : net attempt with
    | exn msg => simp [runAttempts, runAbs, renderExit, hna]
    | http status body =>
      simp only [runAttempts, runAbs, hna]
      by_cases h504 : status = 504
      · rw [if_pos h504, if_pos h504]
        by_cases hlt : attempt < MAX_RETRIES - 1
        · rw [if_pos hlt, if_pos hlt]
          exact runAttempts_eq_render net pfx rest (some (MSG_504 attempt)) (calls + 1)
            (sleeps ++ [INITIAL_RETRY_DELAY * (attempt + 1)])
        · rw [if_neg hlt, if_neg hlt]
          exact runAttempts_eq_render net pfx rest (some (MSG_504 attempt)) (calls + 1)
            sleeps
      · rw [if_neg h504, if_neg h504]
        by_cases h400 : 400 ≤ status ∧ status < 600
        · rw [if_pos h400, if_pos h400]
          simp [renderExit]
        · rw [if_neg h400, if_neg h400]
          cases body with
          | some v => simp [renderExit]
          | none => simp [renderExit]

/-- The transport output never embeds the log prefix's opening bracket.
True of every `requests` exception message here, since the request id is a
fresh UUID unknown to the server. -/
def cleanResp : Response → Prop
  | .exn msg => ('[' : Char) ∉ msg.data
  | .http _ _ => True

theorem runAbs_failed_clean (net : Nat → Response)
    (hnet : ∀ i, cleanResp (net i)) :
    ∀ (attempts : List Nat) (core : Option String) (calls : Nat)
      (sleeps : List Nat),
      (∀ m, core = some m → ('[' : Char) ∉ m.data) →
      ∀ m, (runAbs net attempts core calls sleeps).1 = .failed (some m) →
        ('[' : Char) ∉ m.data
  | [], core, calls, sleeps => by
    intro hcore m hm
    simp only [runAbs] at hm
    exact hcore m (by injection hm)
  | attempt :: rest, core, calls, sleeps => by
    intro hcore m hm
    cases hna : net attempt with
    | exn msg =>
      simp only [runAbs, hna] at hm
      injection hm with hm
      injection hm with hm
      subst hm
      have hclean := hnet attempt
      rw [hna] at hclean
      exact msgReqError_no_lbrack msg hclean
    | http status body =>
      simp only [runAbs, hna] at hm
      by_cases h504 : status = 504
      · rw [if_pos h504] at hm
        by_cases hlt : attempt < MAX_RETRIES - 1
        · rw [if_pos hlt] at hm
          exact runAbs_failed_clean net hnet rest (some (MSG_504 attempt)) (calls + 1)
            (sleeps ++ [INITIAL_RETRY_DELAY * (attempt + 1)])
            (by intro m' hm'; injection hm' with hm'; exact hm' ▸ msg504_no_lbrack attempt)
            m hm
        · rw [if_neg hlt] at hm
          exact runAbs_failed_clean net hnet rest (some (MSG_504 attempt)) (calls + 1)
            sleeps
            (by intro m' hm'; injection hm' with hm'; exact hm' ▸ msg504_no_lbrack attempt)
            m hm
      · rw [if_neg h504] at hm
        by_cases h400 : 400 ≤ status ∧ status < 600
        · rw [if_pos h400] at hm
          injection hm with hm
          injection hm with hm
          subst hm
          exact msgReqError_no_lbrack _ (httpErrorText_no_lbrack status)
        · rw [if_neg h400] at hm
          cases body with
          | some v => exact absurd hm (by simp)
          | none =>
            injection hm with hm
            injection hm with hm
            subst hm
            exact msgDecode_no_lbrack

/-- The loop issues at most one call per remaining attempt. -/
theorem runAttempts_calls_le (net : Nat → Response) (pfx : String) :
    ∀ (attempts : List Nat) (le : Option String) (calls : Nat)
      (sleeps : List Nat),
      (runAttempts net pfx attempts le calls sleeps).2.1 ≤ calls + attempts.length
  | [], le, calls, sleeps => by simp [runAttempts]
  | attempt :: rest, le, calls, sleeps => by
    cases hna : net attempt with
    | exn msg =>
      simp only [runAttempts, hna, List.length_cons]
      omega
    | http status body =>
      simp only [runAttempts, hna, List.length_cons]
      by_cases h504 : status = 504
      · rw [if_pos h504]
        by_cases hlt : attempt < MAX_RETRIES - 1
        · rw [if_pos hlt]
          have h := runAttempts_calls_le net pfx rest
            (some (pfx ++ MSG_504 attempt)) (calls + 1)
            (sleeps ++ [INITIAL_RETRY_DELAY * (attempt + 1)])
          omega
        · rw [if_neg hlt]
          have h := runAttempts_calls_le net pfx rest
            (some (pfx ++ MSG_504 attempt)) (calls + 1) sleeps
          omega
      · rw [if_neg h504]
        by_cases h400 : 400 ≤ status ∧ status < 600
        · rw [if_pos h400]
          simp only []
          omega
        · rw [if_neg h400]
          cases body with
          | some v => simp only []; omega
          | none => simp only []; omega

/-- `(String.mk l).data = l`, to align conditions after unfolding. -/
theorem mk_data (l : List Char) : (String.mk l).data = l := rfl

/-! ### Claim theorems -/

/-- C1: the claim says every `execute_code` outcome is `(None, error_string)`
on failure and `(result_object, None)` on success, also on the
missing-code-block path.  The code contradicts this (and its own return
type annotation `tuple[Optional[dict], Optional[str]]`): on a completion
with no code fence, line 224 returns the pair `(0.0, [{"error": "Invalid
completion (missing code block)"}])` — a float where `None` was promised
and a list of dicts where an error string was promised.  This theorem
evaluates the model at the failing input `"print(1)"`. -/
theorem claim_C1_missing_block_shape :
    execute_code "id0" (fun _ => Response.exn "unused") "print(1)" "" 10 5 128 "python"
      = ⟨PyVal.float0, PyVal.errList "Invalid completion (missing code block)",
         Option.none, 0, []⟩ := by
  rfl

/-- C3: for every completion containing no fence marker at all, `execute_code`
fails deterministically with the missing-code-block error, builds no
request, and issues zero network calls. -/
theorem claim_C3_no_fence (request_id : String) (net : Nat → Response)
    (completion stdin : String) (ct rt ml : Int) (language : String)
    (hnofence : pyContainsSub completion BARE_FENCE = false) :
    execute_code request_id net completion stdin ct rt ml language
      = ⟨PyVal.float0, PyVal.errList "Invalid completion (missing code block)",
         Option.none, 0, []⟩ := by
  have hpy : hasSubList PYTHON_FENCE.data completion.data = false := by
    by_contra hne
    have htrue : hasSubList PYTHON_FENCE.data completion.data = true := by
      revert hne
      cases hasSubList PYTHON_FENCE.data completion.data <;> simp
    have : hasSubList BARE_FENCE.data completion.data = true :=
      hasSubList_mono completion.data (by decide) htrue
    rw [show hasSubList BARE_FENCE.data completion.data = false from hnofence] at this
    exact Bool.false_ne_true this
  have hext : extract_code completion = Extracted.missing := by
    unfold extract_code
    rw [if_neg (by simp [hpy]), if_neg (by simp [show hasSubList BARE_FENCE.data
      completion.data = false from hnofence])]
  simp [execute_code, hext]

/-- C3 witness: a concrete fence-free completion. -/
theorem claim_C3_no_fence_witness :
    pyContainsSub "say hello" BARE_FENCE = false ∧
    execute_code "w3" (fun _ => Response.http 200 (some "B")) "say hello" "" 10 5 128 "python"
      = ⟨PyVal.float0, PyVal.errList "Invalid completion (missing code block)",
         Option.none, 0, []⟩ :=
  ⟨by decide,
   claim_C3_no_fence "w3" (fun _ => Response.http 200 (some "B")) "say hello" ""
     10 5 128 "python" (by decide)⟩

/-- C4: for every language outside `SUPPORTED_LANGUAGES`, `execute_code`
returns an error (the second half of the pair is not `None`), builds no
request and issues zero network calls, regardless of the other inputs. -/
theorem claim_C4_unsupported_language (request_id : String) (net : Nat → Response)
    (completion stdin : String) (ct rt ml : Int) (language : String)
    (hlang : language ∉ SUPPORTED_LANGUAGES) :
    (execute_code request_id net completion stdin ct rt ml language).calls = 0 ∧
    (execute_code request_id net completion stdin ct rt ml language).request = Option.none ∧
    (execute_code request_id net completion stdin ct rt ml language).error ≠ PyVal.none := by
  cases hext : extract_code completion with
  | missing => simp [execute_code, hext]
  | code c =>
    simp only [execute_code, hext]
    rw [if_neg hlang]
    simp

/-- C4 witness: `haskell` is not a supported language. -/
theorem claim_C4_unsupported_language_witness :
    "haskell" ∉ SUPPORTED_LANGUAGES ∧
    ((execute_code "w4" (fun _ => Response.http 200 (some "B")) "```python\nx\n```" ""
        10 5 128 "haskell").calls = 0 ∧
     (execute_code "w4" (fun _ => Response.http 200 (some "B")) "```python\nx\n```" ""
        10 5 128 "haskell").request = Option.none ∧
     (execute_code "w4" (fun _ => Response.http 200 (some "B")) "```python\nx\n```" ""
        10 5 128 "haskell").error ≠ PyVal.none) :=
  ⟨by decide,
   claim_C4_unsupported_language "w4" (fun _ => Response.http 200 (some "B"))
     "```python\nx\n```" "" 10 5 128 "haskell" (by decide)⟩

/-- C10: for all integers `a`, `b`, `do_math a b "sum"` returns the
"Error: Unknown operation" string and never the sum `a + b`, even though
the tool schema's `enum` lists `"sum"` as a valid operation: the `sum`
branch is an independent `if` whose assignment is dead, and `"sum"` then
falls into the `else` of the `subtract`/`multiply`/`divide` chain. -/
theorem claim_C10_sum_unknown_operation :
    (∀ a b : Int, do_math a b "sum" = DoMathResult.errUnknownOperation ∧
       do_math a b "sum" ≠ DoMathResult.resultInt (a + b)) ∧
    "sum" ∈ DO_MATH_OPERATION_ENUM := by
  refine ⟨fun a b => ?_, by decide⟩
  have h : do_math a b "sum" = DoMathResult.errUnknownOperation := by
    simp only [do_math]
    rw [if_neg (by decide : ¬("sum" : String) = "subtract"),
      if_neg (by decide : ¬("sum" : String) = "multiply"),
      if_neg (by decide : ¬("sum" : String) = "divide")]
  rw [h]
  simp

/-- C5: with HTTP 504 on the first two attempts and 200 with a valid JSON
body on the third, `execute_code` returns the parsed result with no error,
issues exactly three calls, and sleeps
`INITIAL_RETRY_DELAY * 1 = 1` second then `INITIAL_RETRY_DELAY * 2 = 2`
seconds (linear backoff). -/
theorem claim_C5_two_504_then_success (request_id : String) (net : Nat → Response)
    (completion stdin : String) (ct rt ml : Int) (language code v : String)
    (b0 b1 : Option String)
    (hext : extract_code completion = Extracted.code code)
    (hlang : language ∈ SUPPORTED_LANGUAGES)
    (h0 : net 0 = Response.http 504 b0)
    (h1 : net 1 = Response.http 504 b1)
    (h2 : net 2 = Response.http 200 (some v)) :
    execute_code request_id net completion stdin ct rt ml language
      = ⟨PyVal.jsonObj v, PyVal.none,
         some ⟨ct, rt, code, stdin, ml, language, [], []⟩, 3, [1, 2]⟩ := by
  have hloop : runAttempts net (logPfx request_id) (List.range MAX_RETRIES)
      Option.none 0 [] = (LoopExit.success v, 3, [1, 2]) := by
    rw [show List.range MAX_RETRIES = [0, 1, 2] from rfl]
    simp [runAttempts, h0, h1, h2, MAX_RETRIES, INITIAL_RETRY_DELAY]
  simp only [execute_code, hext]
  rw [if_pos hlang, hloop]
  rfl

/-- C5 witness: a concrete transport giving 504, 504, then 200. -/
theorem claim_C5_two_504_then_success_witness :
    extract_code "```python\nx\n```" = Extracted.code "\nx\n" ∧
    execute_code "w5"
        (fun i => [Response.http 504 Option.none, Response.http 504 Option.none,
          Response.http 200 (some "OK")].getD i (Response.exn "off-script"))
        "```python\nx\n```" "" 10 5 128 "python"
      = ⟨PyVal.jsonObj "OK", PyVal.none,
         some ⟨10, 5, "\nx\n", "", 128, "python", [], []⟩, 3, [1, 2]⟩ :=
  ⟨by decide,
   claim_C5_two_504_then_success "w5"
     (fun i => [Response.http 504 Option.none, Response.http 504 Option.none,
       Response.http 200 (some "OK")].getD i (Response.exn "off-script"))
     "```python\nx\n```" "" 10 5 128 "python" "\nx\n" "OK" Option.none Option.none
     (by decide) (by decide) rfl rfl rfl⟩

/-- C6 counterexample: the claim covers "any other non-2xx HTTP status",
but `raise_for_status` only raises for statuses in 400-599.  A 301 response
(non-2xx, surfaced when `requests` does not follow it) whose body parses
as JSON is treated as success: `execute_code` returns the parsed result
with NO error after one call, where the claim promises an error. -/
theorem claim_C6_counterexample :
    execute_code "id6" (fun _ => Response.http 301 (some "B"))
        "```python\nx\n```" "" 10 5 128 "python"
      = ⟨PyVal.jsonObj "B", PyVal.none,
         some ⟨10, 5, "\nx\n", "", 128, "python", [], []⟩, 1, []⟩ := by
  rfl

/-- C6 (amended): for every non-504 failure class — an HTTP status in
400-599 other than 504, a transport-level exception, or a malformed
(non-JSON) body on a response whose status does not raise (outside
400-599) — `execute_code` returns an error after exactly one outbound
call, with no retry and no sleep.  (The claim's "any other non-2xx HTTP
status" and "2xx response" are corrected to the 400-599 band:
`raise_for_status` raises exactly for `400 <= status_code < 600`, so a
surfaced 1xx, 3xx or 600-999 status follows the success path.) -/
theorem claim_C6_amended (request_id : String) (net : Nat → Response)
    (completion stdin : String) (ct rt ml : Int) (language code : String)
    (hext : extract_code completion = Extracted.code code)
    (hlang : language ∈ SUPPORTED_LANGUAGES)
    (hfail : (∃ msg, net 0 = Response.exn msg) ∨
      (∃ st b, net 0 = Response.http st b ∧ 400 ≤ st ∧ st < 600 ∧ st ≠ 504) ∨
      (∃ st, net 0 = Response.http st Option.none ∧ (st < 400 ∨ 600 ≤ st) ∧
        st ≠ 504)) :
    (execute_code request_id net completion stdin ct rt ml language).result
        = PyVal.none ∧
    (∃ e, (execute_code request_id net completion stdin ct rt ml language).error
        = PyVal.str e) ∧
    (execute_code request_id net completion stdin ct rt ml language).calls = 1 ∧
    (execute_code request_id net completion stdin ct rt ml language).sleeps = [] := by
  have hrange : List.range MAX_RETRIES = 0 :: [1, 2] := rfl
  rcases hfail with ⟨msg, hn⟩ | ⟨st, b, hn, h400, h600, h504⟩ | ⟨st, hn, hband, h504⟩
  · have hloop : runAttempts net (logPfx request_id) (List.range MAX_RETRIES)
        Option.none 0 []
        = (LoopExit.failed (some (logPfx request_id ++ MSG_REQ_ERROR msg)), 1, []) := by
      rw [hrange]
      simp [runAttempts, hn]
    simp only [execute_code, hext]
    rw [if_pos hlang, hloop]
    exact ⟨rfl, ⟨_, rfl⟩, rfl, rfl⟩
  · have hloop : runAttempts net (logPfx request_id) (List.range MAX_RETRIES)
        Option.none 0 []
        = (LoopExit.failed (some (logPfx request_id
            ++ MSG_REQ_ERROR (httpErrorText st))), 1, []) := by
      rw [hrange]
      simp only [runAttempts, hn]
      rw [if_neg h504, if_pos (And.intro h400 h600)]
    simp only [execute_code, hext]
    rw [if_pos hlang, hloop]
    exact ⟨rfl, ⟨_, rfl⟩, rfl, rfl⟩
  · have hloop : runAttempts net (logPfx request_id) (List.range MAX_RETRIES)
        Option.none 0 []
        = (LoopExit.failed (some (logPfx request_id ++ MSG_DECODE)), 1, []) := by
      rw [hrange]
      simp only [runAttempts, hn]
      rw [if_neg h504,
        if_neg (by rcases hband with h | h <;> omega : ¬ (400 ≤ st ∧ st < 600))]
    simp only [execute_code, hext]
    rw [if_pos hlang, hloop]
    exact ⟨rfl, ⟨_, rfl⟩, rfl, rfl⟩

/-- C6 witness: a concrete HTTP 500 on the first attempt. -/
theorem claim_C6_amended_witness :
    extract_code "```python\nx\n```" = Extracted.code "\nx\n" ∧
    ((execute_code "w6" (fun _ => Response.http 500 Option.none)
        "```python\nx\n```" "" 10 5 128 "python").result = PyVal.none ∧
     (∃ e, (execute_code "w6" (fun _ => Response.http 500 Option.none)
        "```python\nx\n```" "" 10 5 128 "python").error = PyVal.str e) ∧
     (execute_code "w6" (fun _ => Response.http 500 Option.none)
        "```python\nx\n```" "" 10 5 128 "python").calls = 1 ∧
     (execute_code "w6" (fun _ => Response.http 500 Option.none)
        "```python\nx\n```" "" 10 5 128 "python").sleeps = []) :=
  ⟨by decide,
   claim_C6_amended "w6" (fun _ => Response.http 500 Option.none)
     "```python\nx\n```" "" 10 5 128 "python" "\nx\n" (by decide) (by decide)
     (Or.inr (Or.inl ⟨500, Option.none, rfl, by omega, by omega, by omega⟩))⟩

/-- C7: (a) every invocation issues at most `MAX_RETRIES = 3` calls (one
per attempt); (b) a first-attempt 2xx response with a valid JSON body
returns the parsed result immediately after exactly one call; (c) HTTP 504
on every attempt yields, after exactly three calls, an error naming the
gateway timeout and the exhausted attempt budget (`3/3`). -/
theorem claim_C7_attempt_budget :
    (∀ (request_id : String) (net : Nat → Response) (completion stdin : String)
       (ct rt ml : Int) (language : String),
       (execute_code request_id net completion stdin ct rt ml language).calls
         ≤ MAX_RETRIES) ∧
    (∀ (request_id : String) (net : Nat → Response) (completion stdin : String)
       (ct rt ml : Int) (language code v : String) (st : Nat),
       extract_code completion = Extracted.code code →
       language ∈ SUPPORTED_LANGUAGES →
       net 0 = Response.http st (some v) → 200 ≤ st → st < 300 →
       (execute_code request_id net completion stdin ct rt ml language).calls = 1 ∧
       (execute_code request_id net completion stdin ct rt ml language).result
         = PyVal.jsonObj v ∧
       (execute_code request_id net completion stdin ct rt ml language).error
         = PyVal.none) ∧
    (∀ (request_id : String) (net : Nat → Response) (completion stdin : String)
       (ct rt ml : Int) (language code : String),
       extract_code completion = Extracted.code code →
       language ∈ SUPPORTED_LANGUAGES →
       (∀ i, i < MAX_RETRIES → ∃ b, net i = Response.http 504 b) →
       (execute_code request_id net completion stdin ct rt ml language).calls
           = MAX_RETRIES ∧
       (execute_code request_id net completion stdin ct rt ml language).error
           = PyVal.str
             "API Call Failed: API Request Error: Gateway Timeout (504) on attempt 3/3") := by
  refine ⟨?_, ?_, ?_⟩
  · intro request_id net completion stdin ct rt ml language
    cases hext : extract_code completion with
    | missing => simp [execute_code, hext, MAX_RETRIES]
    | code c =>
      simp only [execute_code, hext]
      by_cases hlang : language ∈ SUPPORTED_LANGUAGES
      · rw [if_pos hlang]
        have hb := runAttempts_calls_le net (logPfx request_id)
          (List.range MAX_RETRIES) Option.none 0 []
        rcases hr : runAttempts net (logPfx request_id) (List.range MAX_RETRIES)
          Option.none 0 [] with ⟨ex, calls, sleeps⟩
        rw [hr] at hb
        simp only [List.length_range, Nat.zero_add] at hb
        cases ex with
        | success v => simpa using hb
        | failed le => cases le with
          | none => simpa using hb
          | some e => simpa using hb
      · rw [if_neg hlang]
        simp [MAX_RETRIES]
  · intro request_id net completion stdin ct rt ml language code v st hext hlang hn h2xx h3xx
    have hloop : runAttempts net (logPfx request_id) (List.range MAX_RETRIES)
        Option.none 0 [] = (LoopExit.success v, 1, []) := by
      rw [show List.range MAX_RETRIES = 0 :: [1, 2] from rfl]
      simp only [runAttempts, hn]
      rw [if_neg (by omega : ¬ st = 504),
        if_neg (by omega : ¬ (400 ≤ st ∧ st < 600))]
    simp only [execute_code, hext]
    rw [if_pos hlang, hloop]
    exact ⟨rfl, rfl, rfl⟩
  · intro request_id net completion stdin ct rt ml language code hext hlang hall
    obtain ⟨b0, hn0⟩ := hall 0 (by decide)
    obtain ⟨b1, hn1⟩ := hall 1 (by decide)
    obtain ⟨b2, hn2⟩ := hall 2 (by decide)
    have hloop : runAttempts net (logPfx request_id) (List.range MAX_RETRIES)
        Option.none 0 []
        = (LoopExit.failed (some (logPfx request_id ++ MSG_504 2)), 3, [1, 2]) := by
      rw [show List.range MAX_RETRIES = [0, 1, 2] from rfl]
      simp [runAttempts, hn0, hn1, hn2, MAX_RETRIES, INITIAL_RETRY_DELAY]
    simp only [execute_code, hext]
    rw [if_pos hlang, hloop]
    refine ⟨rfl, ?_⟩
    have hrepl : pyReplace (logPfx request_id ++ MSG_504 2) (logPfx request_id)
        "API Call Failed: " = "API Call Failed: " ++ MSG_504 2 :=
      pyReplace_pfx_append (logPfx request_id) (MSG_504 2) "API Call Failed: "
        '[' ("Request ID: ".data ++ request_id.data ++ "] ".data)
        (logPfx_data request_id)
        (hasSub_logPfx_eq_false request_id (MSG_504 2) (msg504_no_lbrack 2))
    show PyVal.str (pyReplace (logPfx request_id ++ MSG_504 2) (logPfx request_id)
        "API Call Failed: ") = _
    rw [hrepl]
    rfl

/-- C7 witness: all-504 transport, concrete inputs. -/
theorem claim_C7_attempt_budget_witness :
    (execute_code "w7" (fun _ => Response.http 504 Option.none)
        "```python\nx\n```" "" 10 5 128 "python").calls = MAX_RETRIES ∧
    (execute_code "w7" (fun _ => Response.http 504 Option.none)
        "```python\nx\n```" "" 10 5 128 "python").error
      = PyVal.str
          "API Call Failed: API Request Error: Gateway Timeout (504) on attempt 3/3" :=
  claim_C7_attempt_budget.2.2 "w7" (fun _ => Response.http 504 Option.none)
    "```python\nx\n```" "" 10 5 128 "python" "\nx\n" (by decide) (by decide)
    (fun i _ => ⟨Option.none, rfl⟩)

/-- `splitOnList_getLast` for a separator given only as non-empty. -/
theorem splitOnList_getLast_of_ne_nil (sep x y : List Char) (hsep : sep ≠ [])
    (hbf : borderFreeB sep = true)
    (hy : hasSubList sep y = false) :
    (splitOnList sep ((x ++ sep) ++ y)).getLastD [] = y := by
  match sep, hsep with
  | a :: as, _ => exact splitOnList_getLast a as x y hbf hy

/-- C2 counterexample: in a completion with two `"```python"` fences, the
substring between the FIRST tagged fence and the next bare fence is
`"\nold\n"` (the decomposition conjuncts witness this: the completion
starts with the tagged fence, and no bare fence occurs inside
`"\nold\n"`), yet `execute_code`'s extraction — which splits on the
tagged fence and takes `[-1]`, the part after the LAST occurrence —
yields `"\nnew\n"`. -/
theorem claim_C2_counterexample :
    "```python\nold\n```\n```python\nnew\n```"
      = PYTHON_FENCE ++ "\nold\n" ++ BARE_FENCE ++ "\n```python\nnew\n```" ∧
    pyContainsSub "\nold\n" BARE_FENCE = false ∧
    extract_code "```python\nold\n```\n```python\nnew\n```"
      = Extracted.code "\nnew\n" ∧
    ("\nnew\n" : String) ≠ "\nold\n" := by
  refine ⟨rfl, by decide, rfl, by decide⟩

/-- C2 (amended): for every completion of the form
`pre ++ "```python" ++ code ++ "```" ++ rest` in which the tagged fence
does not occur again after the shown occurrence (so it is the LAST one),
no bare fence occurs inside `code`, and `code` does not end in a backtick,
the extracted code is exactly `code` — the substring between the LAST
occurrence of the tagged fence and the next bare fence following it.  The
original claim's "first occurrence" is corrected to "last occurrence"
(Python's `split(...)[-1]`); the two coincide when the tagged fence occurs
once. -/
theorem claim_C2_amended (pre code rest : List Char)
    (h1 : hasSubList PYTHON_FENCE.data ((code ++ BARE_FENCE.data) ++ rest) = false)
    (h2 : hasSubList BARE_FENCE.data code = false)
    (h3 : code.getLast? ≠ some BACKTICK) :
    extract_code (String.mk
        ((pre ++ PYTHON_FENCE.data) ++ ((code ++ BARE_FENCE.data) ++ rest)))
      = Extracted.code (String.mk code) := by
  have hin : hasSubList PYTHON_FENCE.data
      ((pre ++ PYTHON_FENCE.data) ++ ((code ++ BARE_FENCE.data) ++ rest)) = true :=
    hasSubList_append_self PYTHON_FENCE.data pre _ (by decide)
  simp only [extract_code, mk_data]
  rw [if_pos hin,
    splitOnList_getLast_of_ne_nil PYTHON_FENCE.data pre
      ((code ++ BARE_FENCE.data) ++ rest) (by decide) (by decide) h1,
    splitOnList_emit_head BARE_FENCE.data code rest (by decide) h2
      (no_suffix_into_bare_fence code h3)]
  rfl

/-- C2 witness for the amended claim, with an earlier tagged fence inside
`pre` so the last-occurrence reading is exercised. -/
theorem claim_C2_amended_witness :
    (hasSubList PYTHON_FENCE.data
        (("\nnew\n".data ++ BARE_FENCE.data) ++ []) = false ∧
     hasSubList BARE_FENCE.data "\nnew\n".data = false ∧
     "\nnew\n".data.getLast? ≠ some BACKTICK) ∧
    extract_code (String.mk
        (("```python\nold\n```\n".data ++ PYTHON_FENCE.data)
          ++ (("\nnew\n".data ++ BARE_FENCE.data) ++ [])))
      = Extracted.code (String.mk "\nnew\n".data) :=
  ⟨⟨by decide, by decide, by decide⟩,
   claim_C2_amended "```python\nold\n```\n".data "\nnew\n".data []
     (by decide) (by decide) (by decide)⟩

/-- C8: for a completion using a bare ``` fence (and containing no
`"```python"` fence, so the bare-fence branch runs) whose first fenced
line — the part of the fenced segment before its first newline — strips to
a single alphabetic token, that first line is treated as a language tag
and discarded: the extracted code is the segment after the first newline,
so the language line does not appear in it. -/
theorem claim_C8_bare_fence_language_line (pre first_line seg rest : List Char)
    (hnopy : hasSubList PYTHON_FENCE.data
        ((pre ++ BARE_FENCE.data)
          ++ (((first_line ++ '\n' :: seg) ++ BARE_FENCE.data) ++ rest)) = false)
    (hpre1 : hasSubList BARE_FENCE.data pre = false)
    (hpre2 : pre.getLast? ≠ some BACKTICK)
    (hseg1 : hasSubList BARE_FENCE.data (first_line ++ '\n' :: seg) = false)
    (hseg2 : (first_line ++ '\n' :: seg).getLast? ≠ some BACKTICK)
    (hfl : '\n' ∉ first_line)
    (halpha : pyIsAlpha (stripChars first_line) = true) :
    extract_code (String.mk ((pre ++ BARE_FENCE.data)
        ++ (((first_line ++ '\n' :: seg) ++ BARE_FENCE.data) ++ rest)))
      = Extracted.code (String.mk seg) := by
  have hbare : hasSubList BARE_FENCE.data
      ((pre ++ BARE_FENCE.data)
        ++ (((first_line ++ '\n' :: seg) ++ BARE_FENCE.data) ++ rest)) = true :=
    hasSubList_append_self _ pre _ (by decide)
  have hsplit : splitOnList BARE_FENCE.data ((pre ++ BARE_FENCE.data)
      ++ (((first_line ++ '\n' :: seg) ++ BARE_FENCE.data) ++ rest))
      = pre :: (first_line ++ '\n' :: seg)
          :: splitLoop BARE_FENCE.data rest 0 [] := by
    rw [splitOnList_emit_head BARE_FENCE.data pre _ (by decide) hpre1
      (no_suffix_into_bare_fence pre hpre2)]
    congr 1
    rw [splitLoop_emit_head BARE_FENCE.data (by decide) (first_line ++ '\n' :: seg)
      rest [] hseg1 (no_suffix_into_bare_fence _ hseg2)]
    simp
  simp only [extract_code, mk_data]
  rw [if_neg (by simpa using hnopy), if_pos hbare, hsplit]
  rw [if_pos (by simp : 2 ≤ (pre :: (first_line ++ '\n' :: seg)
    :: splitLoop BARE_FENCE.data rest 0 []).length)]
  simp only [List.getD_cons_succ, List.getD_cons_zero]
  rw [splitFirstNewline_append first_line seg hfl]
  simp only [if_pos halpha]

/-- C8 witness: `"Use:\n```ruby\nputs 9\n``` ok"` — the `ruby` line is
stripped from the extracted code. -/
theorem claim_C8_bare_fence_language_line_witness :
    (hasSubList PYTHON_FENCE.data
        (("Use:\n".data ++ BARE_FENCE.data)
          ++ ((("ruby".data ++ '\n' :: "puts 9\n".data) ++ BARE_FENCE.data)
            ++ " ok".data)) = false ∧
     hasSubList BARE_FENCE.data "Use:\n".data = false ∧
     "Use:\n".data.getLast? ≠ some BACKTICK ∧
     hasSubList BARE_FENCE.data ("ruby".data ++ '\n' :: "puts 9\n".data) = false ∧
     ("ruby".data ++ '\n' :: "puts 9\n".data).getLast? ≠ some BACKTICK ∧
     '\n' ∉ "ruby".data ∧
     pyIsAlpha (stripChars "ruby".data) = true) ∧
    extract_code (String.mk (("Use:\n".data ++ BARE_FENCE.data)
        ++ ((("ruby".data ++ '\n' :: "puts 9\n".data) ++ BARE_FENCE.data)
          ++ " ok".data)))
      = Extracted.code (String.mk "puts 9\n".data) :=
  ⟨⟨by decide, by decide, by decide, by decide, by decide, by decide, by decide⟩,
   claim_C8_bare_fence_language_line "Use:\n".data "ruby".data "puts 9\n".data
     " ok".data (by decide) (by decide) (by decide) (by decide) (by decide)
     (by decide) (by decide)⟩

/-- C9 counterexample: the unsupported-language error string (line 233) is
returned WITHOUT stripping the log prefix, so the returned pair embeds the
per-call identifier, and two calls identical except for the identifier
return different pairs. -/
theorem claim_C9_counterexample :
    (execute_code "aaaa" (fun _ => Response.http 200 (some "B"))
        "```python\nx\n```" "" 10 5 128 "haskell").error
      = PyVal.str "[Request ID: aaaa] Unsupported language: haskell" ∧
    (execute_code "bbbb" (fun _ => Response.http 200 (some "B"))
        "```python\nx\n```" "" 10 5 128 "haskell").error
      = PyVal.str "[Request ID: bbbb] Unsupported language: haskell" ∧
    execute_code "aaaa" (fun _ => Response.http 200 (some "B"))
        "```python\nx\n```" "" 10 5 128 "haskell"
      ≠ execute_code "bbbb" (fun _ => Response.http 200 (some "B"))
        "```python\nx\n```" "" 10 5 128 "haskell" ∧
    pyContainsSub "[Request ID: aaaa] Unsupported language: haskell" "aaaa"
      = true := by
  exact ⟨rfl, rfl, by decide, by decide⟩

/-- C9 (amended): outside the unsupported-language path — whose error
string does embed the identifier, see the counterexample — the request id
is used only for log correlation: two calls identical except for the
identifier drawn, with the same network behaviour (whose exception text
does not contain the prefix's opening bracket, true of any transport that
does not quote the fresh UUID back), return equal outcomes. -/
theorem claim_C9_amended (id1 id2 : String) (net : Nat → Response)
    (completion stdin : String) (ct rt ml : Int) (language : String)
    (hlang : language ∈ SUPPORTED_LANGUAGES)
    (hnet : ∀ i, cleanResp (net i)) :
    execute_code id1 net completion stdin ct rt ml language
      = execute_code id2 net completion stdin ct rt ml language := by
  cases hext : extract_code completion with
  | missing => simp [execute_code, hext]
  | code code =>
    simp only [execute_code, hext]
    rw [if_pos hlang, if_pos hlang]
    have h1 := runAttempts_eq_render net (logPfx id1) (List.range MAX_RETRIES)
      Option.none 0 []
    have h2 := runAttempts_eq_render net (logPfx id2) (List.range MAX_RETRIES)
      Option.none 0 []
    rcases habs : runAbs net (List.range MAX_RETRIES) Option.none 0 []
      with ⟨ex, calls, sleeps⟩
    rw [habs] at h1 h2
    simp only [Option.map_none'] at h1 h2
    rw [h1, h2]
    cases ex with
    | success v => simp [finishLoop, renderExit]
    | failed coreOpt =>
      cases coreOpt with
      | none => simp [finishLoop, renderExit]
      | some m =>
        have hclean : ('[' : Char) ∉ m.data :=
          runAbs_failed_clean net hnet (List.range MAX_RETRIES) Option.none 0 []
            (by intro m' hm'; cases hm') m (by rw [habs])
        simp only [finishLoop, renderExit, Option.map_some']
        rw [pyReplace_pfx_append (logPfx id1) m "API Call Failed: " '['
            ("Request ID: ".data ++ id1.data ++ "] ".data) (logPfx_data id1)
            (hasSub_logPfx_eq_false id1 m hclean),
          pyReplace_pfx_append (logPfx id2) m "API Call Failed: " '['
            ("Request ID: ".data ++ id2.data ++ "] ".data) (logPfx_data id2)
            (hasSub_logPfx_eq_false id2 m hclean)]

/-- C9 witness for the amended claim: two different ids, identical
transport behaviour (all 504), equal outcomes. -/
theorem claim_C9_amended_witness :
    "python" ∈ SUPPORTED_LANGUAGES ∧
    execute_code "aaaa" (fun _ => Response.http 504 Option.none)
        "```python\nx\n```" "" 10 5 128 "python"
      = execute_code "bbbb" (fun _ => Response.http 504 Option.none)
        "```python\nx\n```" "" 10 5 128 "python" :=
  ⟨by decide,
   claim_C9_amended "aaaa" "bbbb" (fun _ => Response.http 504 Option.none)
     "```python\nx\n```" "" 10 5 128 "python" (by decide)
     (fun _ => trivial)⟩

end Dispatch
